import Mathlib

/-!
Shallow embedding of the quick-registration repository.

The registrant store (`services/registrationService.ts`) keeps its whole
collection under one localStorage key; we model the persisted collection as a
`List Registrant` and each operation as a pure function from the old
collection (plus the ambient inputs `crypto.randomUUID()` and `Date.now()`,
passed as explicit parameters) to its result and the new persisted collection.
The admin dashboard's search and pagination and the auth context's login are
embedded as pure functions as well.
-/

namespace QuickReg

/-- The closed set of gender values (`'male' | 'female' | 'other'`). -/
inductive Gender where
  | male
  | female
  | other
deriving DecidableEq, Repr

/-- The persisted entity of `types/index.ts`.  The optional `photoData`
field is an `Option String`; in JSON an absent field is `none`. -/
structure Registrant where
  id : String
  fullName : String
  email : String
  phone : String
  address : String
  gender : Gender
  dateOfBirth : String
  photoPath : String
  photoData : Option String
  createdAt : String
deriving DecidableEq, Repr

/-- Model of `RegistrantFormData`: the mutable fields supplied by callers of
`addRegistrant`/`updateRegistrant` (no `id`, `createdAt`, `photoPath`). -/
structure RegistrantFormData where
  fullName : String
  email : String
  phone : String
  address : String
  gender : Gender
  dateOfBirth : String
  photoData : Option String
deriving DecidableEq, Repr

/-- JavaScript truthiness of the optional string `data.photoData`:
`undefined` and the empty string are falsy, every other string is truthy. -/
def strTruthy : Option String → Bool
  | none => false
  | some s => !(s == "")

/-- The simulated file path, the label photo_<now>.jpg built from `Date.now()`. -/
def photoPathFor (now : Nat) : String :=
  "photo_" ++ toString now ++ ".jpg"

/-- Model of `new Date().toISOString()` at instant `now`. -/
def isoString (now : Nat) : String :=
  toString now

/-- Model of `getAllRegistrants`: reads the whole persisted collection (the state
itself in this embedding; lazy initialization yields `[]`). -/
def getAllRegistrants (store : List Registrant) : List Registrant :=
  store

/-- Model of `getRegistrantById`: `registrants.find(r => r.id === id)`. -/
def getRegistrantById (store : List Registrant) (idv : String) : Option Registrant :=
  store.find? fun r => r.id == idv

/-- Model of `addRegistrant`: builds the new record (fresh `id` and `createdAt`,
`photoPath` computed from the current time when a photo is truthy, else
empty), appends it and persists.  Returns the record and the new
collection. -/
def addRegistrant (store : List Registrant) (data : RegistrantFormData)
    (newId : String) (now : Nat) : Registrant × List Registrant :=
  let newRegistrant : Registrant :=
    { id := newId
      fullName := data.fullName
      email := data.email
      phone := data.phone
      address := data.address
      gender := data.gender
      dateOfBirth := data.dateOfBirth
      photoPath := if strTruthy data.photoData then photoPathFor now else ""
      photoData := data.photoData
      createdAt := isoString now }
  (newRegistrant, store ++ [newRegistrant])

/-- JavaScript `Array.prototype.findIndex`: index of the first element
satisfying `p`, or `none` (`-1` in the source). -/
def jsFindIndex (p : α → Bool) : List α → Option Nat
  | [] => none
  | a :: as => if p a then some 0 else (jsFindIndex p as).map (· + 1)

/-- The object literal built by `updateRegistrant` when the record was
found: spread of the old record, mutable fields replaced; `photoData` and
`photoPath` both keep the old pair when the incoming photo is falsy
(`data.photoData || old.photoData`), and are both replaced when truthy. -/
def applyFields (old : Registrant) (data : RegistrantFormData) (now : Nat) : Registrant :=
  { old with
    fullName := data.fullName
    email := data.email
    phone := data.phone
    address := data.address
    gender := data.gender
    dateOfBirth := data.dateOfBirth
    photoData := if strTruthy data.photoData then data.photoData else old.photoData
    photoPath := if strTruthy data.photoData then photoPathFor now else old.photoPath }

/-- Model of `updateRegistrant`: `findIndex` by `id`; if `-1`, return `null` without
persisting; otherwise replace the record at that index and persist.  The
inner `none` branch mirrors an out-of-range access and is unreachable. -/
def updateRegistrant (store : List Registrant) (idv : String)
    (data : RegistrantFormData) (now : Nat) : Option Registrant × List Registrant :=
  match jsFindIndex (fun r => r.id == idv) store with
  | none => (none, store)
  | some i =>
    match store[i]? with
    | none => (none, store)
    | some old =>
      let updated := applyFields old data now
      (some updated, store.set i updated)

/-- Model of `deleteRegistrant`: filter out every record with the given `id`; if the
length is unchanged return `false` without writing, else persist the
filtered collection and return `true`. -/
def deleteRegistrant (store : List Registrant) (idv : String) : Bool × List Registrant :=
  let filteredRegs := store.filter fun r => !(r.id == idv)
  if filteredRegs.length = store.length then (false, store)
  else (true, filteredRegs)

/-! ### Admin dashboard: search and pagination -/

/-- ASCII model of JavaScript `toLowerCase`, acting on the character
list. -/
def lowerStr (s : String) : String :=
  ⟨s.data.map Char.toLower⟩

/-- Model of JavaScript `String.prototype.trim`: strip leading and trailing
whitespace. -/
def jsTrim (s : String) : String :=
  ⟨((s.data.dropWhile Char.isWhitespace).reverse.dropWhile Char.isWhitespace).reverse⟩

/-- Does `hay` start with `needle`?  (Character-by-character check used to
define the substring test.) -/
def leadMatch : List Char → List Char → Bool
  | [], _ => true
  | _ :: _, [] => false
  | a :: as, b :: bs => a == b && leadMatch as bs

/-- Does `needle` occur contiguously inside `hay`?  Model of
`String.prototype.includes`. -/
def containsSub : List Char → List Char → Bool
  | hay, needle =>
    leadMatch needle hay ||
      match hay with
      | [] => false
      | _ :: t => containsSub t needle

/-- String-level substring test, `hay.includes(needle)`. -/
def strContains (hay needle : String) : Bool :=
  containsSub hay.data needle.data

/-- The spec-level meaning of "contains as a substring": some contiguous
occurrence of `needle` inside `hay`. -/
def occursIn (needle hay : String) : Prop :=
  ∃ p q, hay.data = p ++ needle.data ++ q

/-- The per-record predicate of the dashboard's search effect: lowercased
name or email contains the lowercased term, or the phone contains the
original term. -/
def matchesSearch (term : String) (r : Registrant) : Bool :=
  strContains (lowerStr r.fullName) (lowerStr term) ||
  strContains (lowerStr r.email) (lowerStr term) ||
  strContains r.phone term

/-- The dashboard's filtered view: the whole listing when the term trims to
empty, else the records matching the search predicate. -/
def filteredRegistrants (l : List Registrant) (term : String) : List Registrant :=
  if jsTrim term = "" then l else l.filter (matchesSearch term)

/-- Ceiling division, `Math.ceil(n / k)` on naturals (for `k > 0`). -/
def totalPages (n k : Nat) : Nat :=
  (n + k - 1) / k

/-- The dashboard's page slice:
`filtered.slice(page*k - k, page*k)` for page index `page` and page size
`k`. -/
def currentItems (l : List Registrant) (page k : Nat) : List Registrant :=
  (l.drop (page * k - k)).take (page * k - (page * k - k))

/-! ### Auth context -/

/-- The stored admin record (`{username, isAuthenticated}`). -/
structure Admin where
  username : String
  isAuthenticated : Bool
deriving DecidableEq, Repr

/-- The in-memory auth state of `AuthProvider`. -/
structure AuthState where
  admin : Option Admin
  isAuthenticated : Bool
deriving DecidableEq, Repr

/-- Initial in-memory state (`useState(null)` / `useState(false)`). -/
def authInit : AuthState :=
  { admin := none, isAuthenticated := false }

/-- The startup effect: load the persisted `admin` key, if present, into the
in-memory state. -/
def loadSession (stored : Option Admin) : AuthState :=
  match stored with
  | some a => { admin := some a, isAuthenticated := a.isAuthenticated }
  | none => authInit

/-- Model of `login`: succeed exactly on the hardcoded pair, setting and persisting
the session; otherwise return `false` and touch nothing.  Result:
(returned boolean, new in-memory state, new persisted `admin` key). -/
def login (st : AuthState) (stored : Option Admin) (username password : String) :
    Bool × AuthState × Option Admin :=
  if username = "admin" ∧ password = "admin123" then
    let adminUser : Admin := { username := username, isAuthenticated := true }
    (true, { admin := some adminUser, isAuthenticated := true }, some adminUser)
  else
    (false, st, stored)

/-- Model of `logout`: clear in-memory and persisted session state. -/
def logout (_st : AuthState) (_stored : Option Admin) : AuthState × Option Admin :=
  (authInit, none)

/-! ### Sequences of store operations (for the id-uniqueness invariant) -/

/-- One store mutation, with the ambient inputs (`crypto.randomUUID()`,
`Date.now()`) of a create baked into the operation. -/
inductive StoreOp where
  | createOp (data : RegistrantFormData) (newId : String) (now : Nat)
  | updateOp (idv : String) (data : RegistrantFormData) (now : Nat)
  | deleteOp (idv : String)

/-- The persisted collection after one operation. -/
def applyOp (store : List Registrant) : StoreOp → List Registrant
  | .createOp data newId now => (addRegistrant store data newId now).2
  | .updateOp idv data now => (updateRegistrant store idv data now).2
  | .deleteOp idv => (deleteRegistrant store idv).2

/-- The persisted collection after a whole sequence of operations, starting
from the freshly initialized empty collection. -/
def runOps (ops : List StoreOp) : List Registrant :=
  ops.foldl applyOp []

/-- The ids handed to the create calls of a sequence (the values
`crypto.randomUUID()` produced). -/
def createIds (ops : List StoreOp) : List String :=
  ops.filterMap fun
    | .createOp _ newId _ => some newId
    | _ => none

/-! ### Helper lemmas -/

theorem set_of_getElem?_eq : ∀ {l : List α} {i : Nat} {a : α}, l[i]? = some a → l.set i a = l
  | [], i, a, h => by simp at h
  | b :: t, 0, a, h => by
    simp at h
    simp [List.set, h]
  | b :: t, i + 1, a, h => by
    simp at h
    simp [List.set, set_of_getElem?_eq h]

theorem jsFindIndex_eq_none_iff (p : α → Bool) (l : List α) :
    jsFindIndex p l = none ↔ ∀ a ∈ l, p a = false := by
  induction l with
  | nil => simp [jsFindIndex]
  | cons a as ih =>
    by_cases h : p a <;> simp [jsFindIndex, h, ih]

theorem jsFindIndex_some_get (p : α → Bool) :
    ∀ {l : List α} {i : Nat}, jsFindIndex p l = some i → ∃ a, l[i]? = some a ∧ p a = true
  | [], i, h => by simp [jsFindIndex] at h
  | b :: t, i, h => by
    by_cases hb : p b
    · simp [jsFindIndex, hb] at h
      exact ⟨b, by simp [← h], hb⟩
    · simp [jsFindIndex, hb] at h
      obtain ⟨j, hj, rfl⟩ := h
      obtain ⟨a, ha, hpa⟩ := jsFindIndex_some_get p hj
      exact ⟨a, by simpa using ha, hpa⟩

theorem jsFindIndex_of_find? (p : α → Bool) :
    ∀ {l : List α} {a : α}, l.find? p = some a →
      ∃ i, jsFindIndex p l = some i ∧ l[i]? = some a
  | [], a, h => by simp at h
  | b :: t, a, h => by
    by_cases hb : p b
    · rw [List.find?_cons_of_pos _ hb] at h
      injection h with h
      subst h
      exact ⟨0, by simp [jsFindIndex, hb], by simp⟩
    · rw [List.find?_cons_of_neg _ hb] at h
      obtain ⟨i, hi, ha⟩ := jsFindIndex_of_find? p h
      exact ⟨i + 1, by simp [jsFindIndex, hb, hi], by simpa using ha⟩

theorem find?_of_jsFindIndex (p : α → Bool) :
    ∀ {l : List α} {i : Nat} {a : α}, jsFindIndex p l = some i → l[i]? = some a →
      l.find? p = some a
  | [], i, a, h1, _ => by simp [jsFindIndex] at h1
  | b :: t, i, a, h1, h2 => by
    by_cases hb : p b
    · simp [jsFindIndex, hb] at h1
      subst h1
      simp at h2
      rw [List.find?_cons_of_pos _ hb, h2]
    · simp [jsFindIndex, hb] at h1
      obtain ⟨j, hj, rfl⟩ := h1
      simp at h2
      rw [List.find?_cons_of_neg _ hb]
      exact find?_of_jsFindIndex p hj h2

/-- Updating (`updateRegistrant`) never changes the sequence of ids. -/
theorem update_map_id (store : List Registrant) (idv : String)
    (data : RegistrantFormData) (now : Nat) :
    ((updateRegistrant store idv data now).2.map fun r => r.id)
      = store.map fun r => r.id := by
  cases h1 : jsFindIndex (fun r => r.id == idv) store with
  | none => simp [updateRegistrant, h1]
  | some i =>
    cases h2 : store[i]? with
    | none => simp [updateRegistrant, h1, h2]
    | some old =>
      simp only [updateRegistrant, h1, h2]
      rw [List.map_set]
      have hid : (applyFields old data now).id = old.id := rfl
      rw [hid]
      apply set_of_getElem?_eq
      rw [List.getElem?_map, h2, Option.map_some']

/-- Deletion (`deleteRegistrant`) only ever drops records (the result is a sublist). -/
theorem delete_sublist (store : List Registrant) (idv : String) :
    List.Sublist (deleteRegistrant store idv).2 store := by
  unfold deleteRegistrant
  by_cases h : (store.filter fun r => !(r.id == idv)).length = store.length
  · simp [h]
  · simp [h]

theorem lt_of_getElem?_eq {l : List α} {i : Nat} {a : α} (h : l[i]? = some a) :
    i < l.length :=
  (List.getElem?_eq_some.mp h).1

theorem mem_set_self {l : List α} {i : Nat} (a : α) (h : i < l.length) :
    a ∈ l.set i a := by
  have hg : (l.set i a)[i]? = some a := by
    simp [List.getElem?_set_self', List.getElem?_eq_getElem, h]
  exact List.getElem?_mem hg

/-! ### Concrete sample data (used by the evaluation witnesses) -/

def regA : Registrant :=
  { id := "a", fullName := "Alice", email := "al@x", phone := "111",
    address := "addr", gender := .female, dateOfBirth := "2000-01-01",
    photoPath := "pa", photoData := some "PA", createdAt := "ca" }

def regB : Registrant :=
  { id := "b", fullName := "Bob", email := "bo@x", phone := "222",
    address := "addr", gender := .male, dateOfBirth := "1999-01-01",
    photoPath := "pb", photoData := none, createdAt := "cb" }

/-- Form fields with no photo supplied at all. -/
def sampleData : RegistrantFormData :=
  { fullName := "New", email := "n@x", phone := "333", address := "a2",
    gender := .other, dateOfBirth := "1998-01-01", photoData := none }

/-- Form fields with a (non-empty) photo supplied. -/
def samplePhoto : RegistrantFormData :=
  { sampleData with photoData := some "P2" }

/-- Form fields whose photo field is present but the empty string. -/
def sampleEmptyPhoto : RegistrantFormData :=
  { sampleData with photoData := some "" }

/-! ### Claims -/

/-- C1: updating a record without a new photo (empty/absent `photoData`)
yields and persists a record whose `photoData`/`photoPath` pair is exactly
the old one — never mixed — while the other mutable fields are replaced by
the supplied fields and `id`/`createdAt` are kept. -/
theorem update_no_photo_preserves_photo
    (store : List Registrant) (idv : String) (data : RegistrantFormData) (now : Nat)
    (r : Registrant)
    (hfind : getRegistrantById store idv = some r)
    (hph : strTruthy data.photoData = false) :
    ∃ r', (updateRegistrant store idv data now).1 = some r' ∧
      r' ∈ (updateRegistrant store idv data now).2 ∧
      r'.photoData = r.photoData ∧ r'.photoPath = r.photoPath ∧
      r'.fullName = data.fullName ∧ r'.email = data.email ∧ r'.phone = data.phone ∧
      r'.address = data.address ∧ r'.gender = data.gender ∧
      r'.dateOfBirth = data.dateOfBirth ∧ r'.id = r.id ∧ r'.createdAt = r.createdAt := by
  have hfind' : store.find? (fun x => x.id == idv) = some r := hfind
  obtain ⟨i, h1, h2⟩ := jsFindIndex_of_find? (fun (x : Registrant) => x.id == idv) hfind'
  refine ⟨applyFields r data now, ?_, ?_, ?_, ?_, ?_, ?_, ?_, ?_, ?_, ?_, ?_, ?_⟩
  · simp [updateRegistrant, h1, h2]
  · simp only [updateRegistrant, h1, h2]
    exact mem_set_self _ (lt_of_getElem?_eq h2)
  all_goals simp [applyFields, hph]

theorem update_no_photo_preserves_photo_witness :
    ∃ r', (updateRegistrant [regA] "a" sampleData 0).1 = some r' ∧
      r' ∈ (updateRegistrant [regA] "a" sampleData 0).2 ∧
      r'.photoData = regA.photoData ∧ r'.photoPath = regA.photoPath ∧
      r'.fullName = sampleData.fullName ∧ r'.email = sampleData.email ∧
      r'.phone = sampleData.phone ∧ r'.address = sampleData.address ∧
      r'.gender = sampleData.gender ∧ r'.dateOfBirth = sampleData.dateOfBirth ∧
      r'.id = regA.id ∧ r'.createdAt = regA.createdAt :=
  update_no_photo_preserves_photo [regA] "a" sampleData 0 regA (by decide) (by decide)

/-- C2: `update` on an id absent from the collection returns `null` and
leaves the persisted collection unchanged. -/
theorem update_unknown_id_noop
    (store : List Registrant) (idv : String) (data : RegistrantFormData) (now : Nat)
    (h : ∀ r ∈ store, r.id ≠ idv) :
    updateRegistrant store idv data now = (none, store) := by
  have hnone : jsFindIndex (fun r => r.id == idv) store = none := by
    rw [jsFindIndex_eq_none_iff]
    intro a ha
    exact beq_eq_false_iff_ne.mpr (h a ha)
  simp [updateRegistrant, hnone]

theorem update_unknown_id_noop_witness :
    updateRegistrant [regA] "zz" sampleData 0 = (none, [regA]) :=
  update_unknown_id_noop [regA] "zz" sampleData 0 (by decide)

/-- The filter of `deleteRegistrant` keeps the whole collection exactly when
no record carries the deleted id. -/
theorem filterKeep_length_iff (store : List Registrant) (idv : String) :
    ((store.filter fun r => !(r.id == idv)).length = store.length) ↔
      ∀ r ∈ store, r.id ≠ idv := by
  constructor
  · intro h
    have he : (store.filter fun r => !(r.id == idv)) = store :=
      (List.filter_sublist store).eq_of_length h
    intro r hr
    have hb := List.filter_eq_self.mp he r hr
    simpa using hb
  · intro h
    have he : (store.filter fun r => !(r.id == idv)) = store := by
      apply List.filter_eq_self.mpr
      intro r hr
      simpa using h r hr
    rw [he]

/-- C3: `delete` returns `true` exactly when a record with the id was
present; on an unknown id it returns `false` and the persisted collection
is untouched. -/
theorem delete_found_iff
    (store : List Registrant) (idv : String) :
    ((deleteRegistrant store idv).1 = true ↔ ∃ r ∈ store, r.id = idv) ∧
    ((∀ r ∈ store, r.id ≠ idv) → deleteRegistrant store idv = (false, store)) := by
  constructor
  · by_cases h : (store.filter fun r => !(r.id == idv)).length = store.length
    · have hall := (filterKeep_length_iff store idv).mp h
      have hd : deleteRegistrant store idv = (false, store) := by
        simp [deleteRegistrant, h]
      rw [hd]
      constructor
      · intro hc
        exact absurd hc (by simp)
      · rintro ⟨r, hr, hid⟩
        exact absurd hid (hall r hr)
    · have hne : ¬ ∀ r ∈ store, r.id ≠ idv :=
        fun hc => h ((filterKeep_length_iff store idv).mpr hc)
      push_neg at hne
      obtain ⟨r, hr, hid⟩ := hne
      have hd : deleteRegistrant store idv
          = (true, store.filter fun x => !(x.id == idv)) := by
        simp [deleteRegistrant, h]
      rw [hd]
      exact iff_of_true rfl ⟨r, hr, hid⟩
  · intro hall
    have h := (filterKeep_length_iff store idv).mpr hall
    simp [deleteRegistrant, h]

theorem delete_found_iff_witness :
    (deleteRegistrant [regA, regB] "a").1 = true ∧
    deleteRegistrant [regA, regB] "zz" = (false, [regA, regB]) :=
  ⟨(delete_found_iff [regA, regB] "a").1.mpr ⟨regA, by decide, by decide⟩,
   (delete_found_iff [regA, regB] "zz").2 (by decide)⟩

theorem find?_append_of_none {p : α → Bool} :
    ∀ {l₁ : List α} (l₂ : List α), l₁.find? p = none →
      (l₁ ++ l₂).find? p = l₂.find? p
  | [], l₂, _ => rfl
  | a :: t, l₂, h => by
    by_cases ha : p a
    · rw [List.find?_cons_of_pos _ ha] at h
      exact absurd h (by simp)
    · rw [List.find?_cons_of_neg _ ha] at h
      rw [List.cons_append, List.find?_cons_of_neg _ ha]
      exact find?_append_of_none l₂ h

/-- C4: when the freshly generated id is not already taken (the store
assigns ids via `crypto.randomUUID()`), `create` followed by `getById` of
the returned id yields exactly the created record, whose `id` and
`createdAt` are the store-assigned values. -/
theorem create_then_getById
    (store : List Registrant) (data : RegistrantFormData) (newId : String) (now : Nat)
    (h : ∀ r ∈ store, r.id ≠ newId) :
    getRegistrantById (addRegistrant store data newId now).2
        ((addRegistrant store data newId now).1).id
      = some (addRegistrant store data newId now).1 ∧
    ((addRegistrant store data newId now).1).id = newId ∧
    ((addRegistrant store data newId now).1).createdAt = isoString now := by
  refine ⟨?_, rfl, rfl⟩
  have hnone : store.find? (fun r => r.id == newId) = none := by
    rw [List.find?_eq_none]
    intro x hx
    simpa using h x hx
  show (store ++ [(addRegistrant store data newId now).1]).find?
      (fun r => r.id == newId) = some (addRegistrant store data newId now).1
  rw [find?_append_of_none _ hnone]
  simp [addRegistrant]

theorem create_then_getById_witness :
    getRegistrantById (addRegistrant [regA] sampleData "n1" 7).2
        ((addRegistrant [regA] sampleData "n1" 7).1).id
      = some (addRegistrant [regA] sampleData "n1" 7).1 ∧
    ((addRegistrant [regA] sampleData "n1" 7).1).id = "n1" ∧
    ((addRegistrant [regA] sampleData "n1" 7).1).createdAt = isoString 7 :=
  create_then_getById [regA] sampleData "n1" 7 (by decide)

/-- C5 (counterexample): with the photo field supplied as the empty string,
a photo is supplied (the field is not absent), yet the created record's
`photoPath` is empty and its `photoData` is the present-but-empty string,
not absent. -/
theorem create_photo_claim_cex :
    sampleEmptyPhoto.photoData ≠ none ∧
    ((addRegistrant [] sampleEmptyPhoto "a" 0).1).photoPath = "" ∧
    ((addRegistrant [] sampleEmptyPhoto "a" 0).1).photoData ≠ none := by
  refine ⟨by decide, by decide, by decide⟩

theorem photoPathFor_ne_empty (now : Nat) : photoPathFor now ≠ "" := by
  intro h
  have hl := congrArg String.length h
  rw [photoPathFor, String.length_append, String.length_append] at hl
  have h6 : ("photo_").length = 6 := rfl
  have h4 : (".jpg").length = 4 := rfl
  have h0 : ("" : String).length = 0 := rfl
  rw [h6, h4, h0] at hl
  omega

/-- C5 (amended): a record created with a falsy photo field (absent or the
empty string) gets an empty `photoPath` and stores the supplied photo field
verbatim (in particular, absent stays absent); a record created with a
truthy (non-empty) photo gets the non-empty `photoPath` computed from the
current time. -/
theorem create_photo_fields
    (store : List Registrant) (data : RegistrantFormData) (newId : String) (now : Nat) :
    (strTruthy data.photoData = false →
      ((addRegistrant store data newId now).1).photoPath = "" ∧
      ((addRegistrant store data newId now).1).photoData = data.photoData) ∧
    (strTruthy data.photoData = true →
      ((addRegistrant store data newId now).1).photoPath = photoPathFor now ∧
      ((addRegistrant store data newId now).1).photoPath ≠ "") := by
  constructor
  · intro h
    exact ⟨by simp [addRegistrant, h], rfl⟩
  · intro h
    refine ⟨by simp [addRegistrant, h], ?_⟩
    have hp : ((addRegistrant store data newId now).1).photoPath = photoPathFor now := by
      simp [addRegistrant, h]
    rw [hp]
    exact photoPathFor_ne_empty now

theorem create_photo_fields_witness :
    ((addRegistrant [] sampleData "a" 0).1).photoPath = "" ∧
    ((addRegistrant [] samplePhoto "a" 0).1).photoPath ≠ "" :=
  ⟨((create_photo_fields [] sampleData "a" 0).1 (by decide)).1,
   ((create_photo_fields [] samplePhoto "a" 0).2 (by decide)).2⟩

theorem leadMatch_iff : ∀ (needle hay : List Char),
    leadMatch needle hay = true ↔ ∃ t, hay = needle ++ t
  | [], hay => by simp [leadMatch]
  | a :: as, [] => by simp [leadMatch]
  | a :: as, b :: bs => by
    simp only [leadMatch, Bool.and_eq_true, beq_iff_eq]
    constructor
    · rintro ⟨rfl, h⟩
      obtain ⟨t, rfl⟩ := (leadMatch_iff as bs).mp h
      exact ⟨t, rfl⟩
    · rintro ⟨t, ht⟩
      rw [List.cons_append] at ht
      injection ht with h1 h2
      exact ⟨h1.symm, (leadMatch_iff as bs).mpr ⟨t, h2⟩⟩

theorem containsSub_iff (needle : List Char) (hay : List Char) :
    containsSub hay needle = true ↔ ∃ p q, hay = p ++ needle ++ q := by
  induction hay with
  | nil =>
    rw [containsSub]
    simp only [Bool.or_false, leadMatch_iff]
    constructor
    · rintro ⟨t, ht⟩
      exact ⟨[], t, by simpa using ht⟩
    · rintro ⟨p, q, hpq⟩
      have h1 := List.append_eq_nil.mp hpq.symm
      have h2 := List.append_eq_nil.mp h1.1
      exact ⟨q, by rw [h2.2, h1.2]; rfl⟩
  | cons b bs ih =>
    rw [containsSub]
    simp only [Bool.or_eq_true, leadMatch_iff, ih]
    constructor
    · rintro (⟨t, ht⟩ | ⟨p, q, hpq⟩)
      · exact ⟨[], t, by simpa using ht⟩
      · exact ⟨b :: p, q, by simp [hpq]⟩
    · rintro ⟨p, q, hpq⟩
      cases p with
      | nil =>
        left
        exact ⟨q, by simpa using hpq⟩
      | cons x xs =>
        right
        rw [List.cons_append, List.cons_append] at hpq
        injection hpq with h1 h2
        exact ⟨xs, q, h2⟩

/-- The boolean substring test agrees with the spec-level notion of a
contiguous occurrence. -/
theorem strContains_iff (hay needle : String) :
    strContains hay needle = true ↔ occursIn needle hay :=
  containsSub_iff needle.data hay.data

/-- C6: a record is in the filtered view iff its name or email contains the
(lowercased) term as a case-insensitive substring or its phone contains the
term as an exact substring; an empty or whitespace-only term yields the full
listing. -/
theorem search_filter_spec (l : List Registrant) (term : String) (r : Registrant) :
    (jsTrim term = "" → filteredRegistrants l term = l) ∧
    (jsTrim term ≠ "" →
      (r ∈ filteredRegistrants l term ↔
        r ∈ l ∧
          (occursIn (lowerStr term) (lowerStr r.fullName) ∨
           occursIn (lowerStr term) (lowerStr r.email) ∨
           occursIn term r.phone))) := by
  constructor
  · intro h
    simp [filteredRegistrants, h]
  · intro h
    rw [filteredRegistrants, if_neg h, List.mem_filter]
    simp only [matchesSearch, Bool.or_eq_true, strContains_iff, or_assoc]

theorem search_filter_spec_witness :
    filteredRegistrants [regA, regB] " " = [regA, regB] ∧
    regA ∈ filteredRegistrants [regA, regB] "lic" :=
  ⟨(search_filter_spec [regA, regB] " " regA).1 (by decide),
   ((search_filter_spec [regA, regB] "lic" regA).2 (by decide)).mpr
     ⟨by decide, Or.inl ⟨['a'], ['e'], by decide⟩⟩⟩

theorem mul_sub_one_eq (a b : Nat) : a * (b - 1) = a * b - a := by
  cases b with
  | zero => simp
  | succ n => simp [Nat.mul_succ]

/-- C7: for page size `k > 0`, `totalPages` is the ceiling of `N / k`
(characterized by its two bounds), every page strictly before the last
holds exactly `k` items, and the last page holds `N - k*(totalPages - 1)`
items. -/
theorem pagination_spec (l : List Registrant) (k p : Nat) (hk : 0 < k) :
    l.length ≤ k * totalPages l.length k ∧
    (0 < l.length → k * (totalPages l.length k - 1) < l.length) ∧
    (1 ≤ p → p < totalPages l.length k → (currentItems l p k).length = k) ∧
    (0 < l.length →
      (currentItems l (totalPages l.length k) k).length
        = l.length - k * (totalPages l.length k - 1)) := by
  simp only [totalPages, currentItems, List.length_take, List.length_drop]
  have hdm := Nat.div_add_mod (l.length + k - 1) k
  have hmod := Nat.mod_lt (l.length + k - 1) hk
  have ht1 : k * ((l.length + k - 1) / k - 1) = k * ((l.length + k - 1) / k) - k :=
    mul_sub_one_eq k ((l.length + k - 1) / k)
  refine ⟨by omega, by omega, ?_, ?_⟩
  · intro hp hpt
    have hkp : k ≤ p * k := by
      have := Nat.mul_le_mul_right k hp
      rwa [one_mul] at this
    have hsucc : p * k + k ≤ ((l.length + k - 1) / k) * k := by
      have hle : p + 1 ≤ (l.length + k - 1) / k := hpt
      have := Nat.mul_le_mul_right k hle
      rwa [Nat.succ_mul] at this
    have htk : ((l.length + k - 1) / k) * k = k * ((l.length + k - 1) / k) :=
      Nat.mul_comm _ _
    omega
  · intro hn
    have htge : 1 ≤ (l.length + k - 1) / k := by
      rw [Nat.le_div_iff_mul_le hk]
      omega
    have hkt : k ≤ ((l.length + k - 1) / k) * k := by
      have := Nat.mul_le_mul_right k htge
      rwa [one_mul] at this
    have htk : ((l.length + k - 1) / k) * k = k * ((l.length + k - 1) / k) :=
      Nat.mul_comm _ _
    omega

theorem pagination_spec_witness :
    (currentItems (List.replicate 7 regA) 2 3).length = 3 ∧
    (currentItems (List.replicate 7 regA) (totalPages 7 3) 3).length
      = 7 - 3 * (totalPages 7 3 - 1) :=
  ⟨((pagination_spec (List.replicate 7 regA) 3 2 (by decide)).2.2.1
      (by decide) (by decide)),
   ((pagination_spec (List.replicate 7 regA) 3 2 (by decide)).2.2.2 (by decide))⟩

/-- C8: `login` succeeds exactly on the hardcoded credential pair; on
success the in-memory flag becomes true and the persisted session record
survives a simulated restart (a reload of the persisted state); on failure
both the in-memory state and the persisted record are left untouched. -/
theorem login_spec (st : AuthState) (stored : Option Admin) (u pw : String) :
    ((login st stored u pw).1 = true ↔ u = "admin" ∧ pw = "admin123") ∧
    (u = "admin" → pw = "admin123" →
      (login st stored u pw).2.1.isAuthenticated = true ∧
      (loadSession (login st stored u pw).2.2).isAuthenticated = true) ∧
    ((login st stored u pw).1 = false →
      (login st stored u pw).2.1 = st ∧ (login st stored u pw).2.2 = stored) := by
  refine ⟨?_, ?_, ?_⟩
  · by_cases h : u = "admin" ∧ pw = "admin123" <;> simp [login, h]
  · intro hu hp
    have h : u = "admin" ∧ pw = "admin123" := ⟨hu, hp⟩
    simp [login, h, loadSession]
  · intro hf
    by_cases h : u = "admin" ∧ pw = "admin123"
    · simp [login, h] at hf
    · simp [login, h]

theorem login_spec_witness :
    (login authInit none "admin" "admin123").1 = true ∧
    (loadSession (login authInit none "admin" "admin123").2.2).isAuthenticated = true ∧
    (login authInit none "admin" "oops").2.1 = authInit ∧
    (login authInit none "admin" "oops").2.2 = none :=
  ⟨(login_spec authInit none "admin" "admin123").1.mpr ⟨rfl, rfl⟩,
   ((login_spec authInit none "admin" "admin123").2.1 rfl rfl).2,
   ((login_spec authInit none "admin" "oops").2.2 (by decide)).1,
   ((login_spec authInit none "admin" "oops").2.2 (by decide)).2⟩

/-- Invariant carrier for id uniqueness: if the current ids together with
the ids the upcoming creates will be given are pairwise distinct, the ids
stay pairwise distinct through any sequence of operations. -/
theorem foldl_ids_nodup : ∀ (ops : List StoreOp) (store : List Registrant),
    ((store.map fun r => r.id) ++ createIds ops).Nodup →
    ((ops.foldl applyOp store).map fun r => r.id).Nodup
  | [], store, h => by simpa [createIds] using h
  | op :: rest, store, h => by
    rw [List.foldl_cons]
    apply foldl_ids_nodup rest
    cases op with
    | createOp data newId now =>
      have hids : ((applyOp store (.createOp data newId now)).map fun r => r.id)
          = (store.map fun r => r.id) ++ [newId] := by
        simp [applyOp, addRegistrant]
      rw [hids, List.append_assoc]
      have hc : createIds (StoreOp.createOp data newId now :: rest)
          = newId :: createIds rest := rfl
      rw [hc] at h
      simpa using h
    | updateOp idv data now =>
      show (((updateRegistrant store idv data now).2.map fun r => r.id)
        ++ createIds rest).Nodup
      rw [update_map_id store idv data now]
      exact h
    | deleteOp idv =>
      have hsub : List.Sublist
          ((applyOp store (.deleteOp idv)).map fun r => r.id)
          (store.map fun r => r.id) :=
        (delete_sublist store idv).map _
      exact h.sublist (hsub.append_right _)

/-- C9: the records returned by `create` carry exactly the ids the
generator supplied, so as long as the generated UUIDs are pairwise
distinct, the ids in the persisted collection are pairwise distinct after
every prefix of any operation sequence starting from the empty store. -/
theorem create_ids_unique (ops : List StoreOp)
    (h : (createIds ops).Nodup) :
    (∀ (store : List Registrant) (data : RegistrantFormData) (newId : String) (now : Nat),
      ((addRegistrant store data newId now).1).id = newId) ∧
    ∀ n, ((runOps (ops.take n)).map fun r => r.id).Nodup := by
  refine ⟨fun _ _ _ _ => rfl, fun n => ?_⟩
  show (((ops.take n).foldl applyOp []).map fun r => r.id).Nodup
  apply foldl_ids_nodup
  simp only [List.map_nil, List.nil_append]
  exact h.sublist ((List.take_sublist n ops).filterMap _)

def sampleOps : List StoreOp :=
  [.createOp sampleData "u1" 0, .createOp samplePhoto "u2" 1,
   .deleteOp "u1", .updateOp "u2" sampleData 2]

theorem create_ids_unique_witness :
    ((runOps (sampleOps.take 4)).map fun r => r.id).Nodup :=
  (create_ids_unique sampleOps (by decide)).2 4

/-- C10: `delete` removes every record with the given id and nothing else,
keeping the survivors' relative order; `update` on a found index changes
the collection only at that position, preserving the length and every other
position's contents. -/
theorem delete_update_positional (store : List Registrant) (idv : String)
    (data : RegistrantFormData) (now : Nat) :
    (∀ r ∈ (deleteRegistrant store idv).2, r.id ≠ idv) ∧
    List.Sublist (deleteRegistrant store idv).2 store ∧
    (∀ r ∈ store, r.id ≠ idv → r ∈ (deleteRegistrant store idv).2) ∧
    (∀ i r', jsFindIndex (fun r => r.id == idv) store = some i →
      (updateRegistrant store idv data now).1 = some r' →
      (updateRegistrant store idv data now).2.length = store.length ∧
      ((updateRegistrant store idv data now).2)[i]? = some r' ∧
      ∀ j, j ≠ i → ((updateRegistrant store idv data now).2)[j]? = store[j]?) := by
  refine ⟨?_, delete_sublist store idv, ?_, ?_⟩
  · intro r hr
    by_cases h : (store.filter fun x => !(x.id == idv)).length = store.length
    · have hd : (deleteRegistrant store idv).2 = store := by
        simp [deleteRegistrant, h]
      rw [hd] at hr
      exact (filterKeep_length_iff store idv).mp h r hr
    · have hd : (deleteRegistrant store idv).2
          = store.filter fun x => !(x.id == idv) := by
        simp [deleteRegistrant, h]
      rw [hd] at hr
      have := (List.mem_filter.mp hr).2
      simpa using this
  · intro r hr hid
    by_cases h : (store.filter fun x => !(x.id == idv)).length = store.length
    · have hd : (deleteRegistrant store idv).2 = store := by
        simp [deleteRegistrant, h]
      rw [hd]
      exact hr
    · have hd : (deleteRegistrant store idv).2
          = store.filter fun x => !(x.id == idv) := by
        simp [deleteRegistrant, h]
      rw [hd]
      exact List.mem_filter.mpr ⟨hr, by simpa using hid⟩
  · intro i r' hfi hupd
    obtain ⟨old, hold, _⟩ := jsFindIndex_some_get _ hfi
    simp only [updateRegistrant, hfi, hold] at hupd ⊢
    injection hupd with hupd
    refine ⟨List.length_set store i _, ?_, ?_⟩
    · rw [← hupd]
      simp [List.getElem?_set_self', List.getElem?_eq_getElem, lt_of_getElem?_eq hold]
    · intro j hj
      exact List.getElem?_set_ne (Ne.symm hj)

theorem delete_update_positional_witness :
    regB ∈ (deleteRegistrant [regA, regB] "a").2 ∧
    (updateRegistrant [regA, regB] "b" sampleData 5).2.length = 2 ∧
    ((updateRegistrant [regA, regB] "b" sampleData 5).2)[0]? = some regA :=
  ⟨(delete_update_positional [regA, regB] "a" sampleData 5).2.2.1 regB
     (by decide) (by decide),
   ((delete_update_positional [regA, regB] "b" sampleData 5).2.2.2 1
     (applyFields regB sampleData 5) (by decide) (by decide)).1,
   ((delete_update_positional [regA, regB] "b" sampleData 5).2.2.2 1
     (applyFields regB sampleData 5) (by decide) (by decide)).2.2 0 (by decide)⟩

end QuickReg
